import Mathlib

/-!
# Verification of the gossiped jnode-SQL storage backend and quote engine

Shallow embedding of the core of the `gossiped` repository:
the quote-detection / word-wrap engine (`pkg/ui/editor/quote.go`), the
line-ending normalizers, the message-count cache, and the jnode SQL area
backend (`pkg/msgapi` SQL area file) together with the database row models
(`pkg/database/models.go`).

Modeling conventions:
* Go strings are modeled as `List Char` (rune sequences).  Go's
  byte-oriented `len`/indexing coincides with the rune count on the
  single-byte/ASCII data all concrete claims use.
* Go `int64` values (ids, counts, dates) are modeled as `Int`;
  Go `uint32` values are modeled as `Nat`, with the `uint32(...)`
  conversions of the source made explicit as `% 2^32`.
* The relational store is modeled as in-memory lists of rows; the list
  order is the primary-key (`id ASC`) order that GORM's `First`/`Offset`
  queries use, so `First` is `List.find?` / `List.get?` on these lists.
-/

set_option autoImplicit false

namespace Gossiped

/-! ## Go `unicode` character classes

`unicode.IsSpace`: Go returns true exactly for the Unicode White_Space
code points: 0x09–0x0D, 0x20, 0x85, 0xA0, 0x1680, 0x2000–0x200A, 0x2028,
0x2029, 0x202F, 0x205F, 0x3000. -/
def goIsSpace (c : Char) : Bool :=
  (0x09 ≤ c.toNat && c.toNat ≤ 0x0D) || c.toNat = 0x20 || c.toNat = 0x85 ||
  c.toNat = 0xA0 || c.toNat = 0x1680 ||
  (0x2000 ≤ c.toNat && c.toNat ≤ 0x200A) ||
  c.toNat = 0x2028 || c.toNat = 0x2029 || c.toNat = 0x202F ||
  c.toNat = 0x205F || c.toNat = 0x3000

/-- Go `unicode.IsControl`: true exactly for the Latin-1 range control
characters (category Cc): 0x00–0x1F and 0x7F–0x9F; false above 0xFF. -/
def goIsControl (c : Char) : Bool :=
  c.toNat ≤ 0x1F || (0x7F ≤ c.toNat && c.toNat ≤ 0x9F)

/-- Go `unicode.IsLetter`, restricted to the Basic Latin and Latin-1
range (category L there: a–z, A–Z, 0xAA, 0xB5, 0xBA, 0xC0–0xD6,
0xD8–0xF6, 0xF8–0xFF).  Every input the claims evaluate on is ASCII,
where this coincides with Go's table. -/
def goIsLetter (c : Char) : Bool :=
  (0x41 ≤ c.toNat && c.toNat ≤ 0x5A) || (0x61 ≤ c.toNat && c.toNat ≤ 0x7A) ||
  c.toNat = 0xAA || c.toNat = 0xB5 || c.toNat = 0xBA ||
  (0xC0 ≤ c.toNat && c.toNat ≤ 0xD6) || (0xD8 ≤ c.toNat && c.toNat ≤ 0xF6) ||
  (0xF8 ≤ c.toNat && c.toNat ≤ 0xFF)

/-! ## Quote engine (`pkg/ui/editor/quote.go`) -/

/-- `QuoteStops = "<\"'-"` (quote.go line 9): the four stop characters. -/
def QuoteStops : List Char := ['<', '"', Char.ofNat 0x27, '-']

/-- `MaxQuoteLen = 40` (quote.go line 10). -/
def MaxQuoteLen : Nat := 40

/-- `IsQuoteChar` (quote.go 15–17): only `>` is a quote character. -/
def IsQuoteChar (c : Char) : Bool := c = '>'

/-- The break condition of the `IsQuoteBasic` scan loop
(quote.go 117–119): a control character, a stop character, or
whitespace. -/
def qbStop (c : Char) : Bool :=
  goIsControl c || QuoteStops.contains c || goIsSpace c

/-- The scan loop of `IsQuoteBasic` (quote.go 113–125), expressed as a
recursion over the remaining runes with the remaining scan budget
`endPtr - ptr`.  Each step: a `>` returns true; a control character, a
stop character or whitespace breaks the loop (the final
`ptr < endPtr && ptr < len && IsQuoteChar(runes[ptr])` check is then
false, because the break character is not `>`); otherwise advance.
Exhausting the budget or the line makes the final check false. -/
def scanQuoteBasic : List Char → Nat → Bool
  | _, 0 => false
  | [], _ + 1 => false
  | c :: cs, n + 1 =>
    if IsQuoteChar c then true
    else if qbStop c then false
    else scanQuoteBasic cs n

/-- `IsQuoteBasic` (quote.go 85–126).  `endPtr` is capped at 11 counting
from the start of the line; `ptr` first skips leading whitespace and
line feeds; an empty line, or a skip reaching the end or the scan limit,
yields false; otherwise the scan loop runs with budget `endPtr - ptr`
(the immediate `IsQuoteChar(runes[ptr])` check of line 108 is the first
iteration of `scanQuoteBasic`). -/
def IsQuoteBasic (line : List Char) : Bool :=
  if line.length = 0 then false
  else
    let endPtr := min line.length 11
    let ptr := (line.takeWhile (fun c => goIsSpace c || c = '\n')).length
    if ptr ≥ line.length || ptr ≥ endPtr then false
    else scanQuoteBasic (line.drop ptr) (endPtr - ptr)

/-- The length of the leading whitespace/line-feed prefix skipped by
`IsQuoteBasic` (quote.go 98–100). -/
def skipLen (line : List Char) : Nat :=
  (line.takeWhile (fun c => goIsSpace c || c = '\n')).length

/-- Result of the forward `>` search of `IsQuoteEnhanced`
(quote.go 40–52): either the loop hit a stop character / CR / LF first
(immediate true), or it found `>` (recording `pos`, the index one past
the `>`), or it exhausted the line (false). -/
inductive GtScan where
  | stopQuote : GtScan
  | foundAfter : Nat → GtScan
  | notFound : GtScan
deriving DecidableEq, Repr

/-- The `for pos < len && !found` loop of quote.go 42–52, over the runes
after the skipped whitespace; the returned index is relative to the
start of the scanned suffix and, in the found case, points one past the
`>` (the loop increments `pos` after setting `found`). -/
def scanForGt : List Char → Nat → GtScan
  | [], _ => .notFound
  | c :: cs, k =>
    if c = '>' then .foundAfter (k + 1)
    else if QuoteStops.contains c || c = '\r' || c = '\n' then .stopQuote
    else scanForGt cs (k + 1)

/-- `checkPreviousLinesContext` (quote.go 129–180), scanning `prevLines`
from the most recent line backward.  The recursion consumes the
reversed list; `later` holds the lines already visited, i.e. the lines
after the current one in original order (the range the `j`-loop of
quote.go 168–172 searches for `>`); `sawPara` models the
`paragraph != nil` flag. -/
def checkPrevAux : List (List Char) → List (List Char) → Bool → Bool
  | [], _, _ => true
  | line :: rest, later, sawPara =>
    if IsQuoteBasic line then true
    else if line.length = 0 || line.head? = some '\n' || line.head? = some '\r' then
      if sawPara then true else checkPrevAux rest (line :: later) true
    else if line.head? = some (Char.ofNat 0x01) then true
    else
      match (List.range line.length).filter
          (fun i => line.get? i = some '<') |>.getLast? with
      | some lastLT =>
        if (line.drop lastLT).contains '>' then true
        else if later.any (fun l => l.contains '>') then true
        else false
      | none => checkPrevAux rest (line :: later) sawPara

/-- `checkPreviousLinesContext` (quote.go 129–180): empty context, or a
scan that exhausts all previous lines, defaults to true (quoted). -/
def checkPreviousLinesContext (prevLines : List (List Char)) : Bool :=
  checkPrevAux prevLines.reverse [] false

/-- `IsQuoteEnhanced` (quote.go 21–82): skip the leading whitespace,
search forward for the first `>` (a stop character / CR / LF first means
true); no `>` means false; otherwise true when the remainder after the
`>` is itself quote-basic, or when the prefix before the `>` consists of
at most three characters all alphabetic; otherwise the previous-lines
context decides. -/
def IsQuoteEnhanced (line : List Char) (prevLines : List (List Char)) : Bool :=
  if line.length = 0 then false
  else
    let head := (line.takeWhile goIsSpace).length
    if head ≥ line.length then false
    else
      match scanForGt (line.drop head) 0 with
      | .stopQuote => true
      | .notFound => false
      | .foundAfter k =>
        let pos := head + k
        if pos < line.length && IsQuoteBasic (line.drop pos) then true
        else
          let alphaCount :=
            ((line.drop head).take (k - 1)).countP goIsLetter
          if alphaCount < 4 && alphaCount = k - 1 then true
          else checkPreviousLinesContext prevLines

/-- The builder loop of `GetQuoteString` (quote.go 218–223): copy runes
from the front of the line, skipping line feeds, while fewer than
`MaxQuoteLen - 1` runes have been written; the input is the first `end`
runes of the line. -/
def buildCapped : Nat → List Char → List Char
  | _, [] => []
  | cap, c :: cs =>
    if cap = 0 then []
    else if c = '\n' then buildCapped cap cs
    else c :: buildCapped (cap - 1) cs

/-- `GetQuoteString` (quote.go 184–227): empty for a non-quote-basic
line; otherwise skip leading whitespace/line feeds, advance to the first
`>`, consume the run of consecutive `>` plus one following
whitespace/line feed, and return the (line-feed-filtered, length-capped)
prefix of the line up to that point together with its length. -/
def GetQuoteString (line : List Char) : List Char × Nat :=
  if !IsQuoteBasic line then ([], 0)
  else
    let s1 := (line.takeWhile (fun c => goIsSpace c || c = '\n')).length
    let s2 := s1 + ((line.drop s1).takeWhile (fun c => !IsQuoteChar c)).length
    if s2 ≥ line.length then ([], 0)
    else
      let e1 := s2 + ((line.drop s2).takeWhile IsQuoteChar).length
      let e2 :=
        match line.get? e1 with
        | some c => if goIsSpace c || c = '\n' then e1 + 1 else e1
        | none => e1
      let q := buildCapped (MaxQuoteLen - 1) (line.take e2)
      (q, q.length)

/-- The accumulator recursion behind `strings.Fields`: split the rune
sequence into the maximal runs of non-whitespace runes (Go
`strings.Fields` splits around runs of `unicode.IsSpace`). -/
def fieldsAux : List Char → List Char → List (List Char)
  | [], cur => if cur.isEmpty then [] else [cur.reverse]
  | c :: cs, cur =>
    if goIsSpace c then
      if cur.isEmpty then fieldsAux cs [] else cur.reverse :: fieldsAux cs []
    else fieldsAux cs (c :: cur)

/-- `strings.Fields(content)` as used by `wrapTextContent`
(quote.go 344). -/
def goFields (l : List Char) : List (List Char) := fieldsAux l []

/-- The greedy word-filling loop of `wrapTextContent` (quote.go 346–365):
`cur` is the line being built, `acc` the finished lines; a word that
would push the current non-empty line past `maxWidth` starts a new line,
otherwise it is appended (with a separating space when the line is
non-empty); a non-empty final line is flushed. -/
def wrapLoop (maxWidth : Int) : List (List Char) → List Char → List (List Char) → List (List Char)
  | [], cur, acc => if cur.length > 0 then acc ++ [cur] else acc
  | w :: ws, cur, acc =>
    if cur.length > 0 && decide ((cur.length : Int) + 1 + (w.length : Int) > maxWidth) then
      wrapLoop maxWidth ws w (acc ++ [cur])
    else
      wrapLoop maxWidth ws (if cur.length > 0 then cur ++ ' ' :: w else w) acc

/-- `wrapTextContent` (quote.go 333–368): empty content yields one empty
line, content within `maxWidth` is returned whole, otherwise the greedy
word-filling loop runs over `strings.Fields(content)`. -/
def wrapTextContent (content : List Char) (maxWidth : Int) : List (List Char) :=
  if content.length = 0 then [[]]
  else if (content.length : Int) ≤ maxWidth then [content]
  else wrapLoop maxWidth (goFields content) [] []

/-- `strings.Split(text, "\n")` as an accumulator recursion. -/
def splitAux : List Char → List Char → List (List Char)
  | [], cur => [cur.reverse]
  | c :: cs, cur =>
    if c = '\n' then cur.reverse :: splitAux cs [] else splitAux cs (c :: cur)

/-- The per-input-line body of the `WordWrapQuoteAware` loop
(quote.go 289–327): an empty line passes through; a quoted line uses the
quote margin, a plain line the width; a line within its margin passes
through unchanged; otherwise the content after the quote string is
wrapped at `margin - quoteLen` and the quote string is prefixed to every
wrapped line. -/
def processLine (width quotemargin : Int) (line : List Char) : List (List Char) :=
  if line.length = 0 then [[]]
  else
    let qp := GetQuoteString line
    let margin := if qp.2 > 0 then quotemargin else width
    if (line.length : Int) ≤ margin then [line]
    else (wrapTextContent (line.drop qp.2) (margin - (qp.2 : Int))).map (fun w => qp.1 ++ w)

/-- `WordWrapQuoteAware` (quote.go 281–330): empty text yields one empty
line; otherwise the text is split on line feeds and each line processed,
the resulting line lists concatenated in order. -/
def WordWrapQuoteAware (text : List Char) (width quotemargin : Int) : List (List Char) :=
  if text.length = 0 then [[]]
  else ((splitAux text []).map (processLine width quotemargin)).flatten

/-! ## Line-ending normalizers (SQL area file, lines 814–830) -/

/-- `NormalizeForStorage` (lines 818–825): replace every CR by LF
(`strings.ReplaceAll(body, "\r", "\n")`), strip all trailing LFs
(`strings.TrimRight(result, "\n")`) and append exactly one LF. -/
def NormalizeForStorage (body : List Char) : List Char :=
  let result := body.map (fun c => if c = '\r' then '\n' else c)
  (result.reverse.dropWhile (fun c => c = '\n')).reverse ++ ['\n']

/-- `NormalizeFromStorage` (lines 827–830): replace every LF by CR
(`strings.ReplaceAll(body, "\n", "\r")`). -/
def NormalizeFromStorage (body : List Char) : List Char :=
  body.map (fun c => if c = '\n' then '\r' else c)

/-! ## FTN addresses

`pkg/types.FidoAddr` is used by the SQL area file but its own source is
not under src/; it is modeled from the spec. -/

/-- Modelled from the spec: `FidoAddr` (pkg/types, not under src/) — an
immutable value of zone, net, node and an optional point defaulting
to 0 (each a uint16). -/
structure FidoAddr where
  zone : Nat
  net : Nat
  node : Nat
  point : Nat
deriving DecidableEq, Repr

/-- The zero `FidoAddr` value substituted when address parsing fails. -/
def zeroAddr : FidoAddr := ⟨0, 0, 0, 0⟩

/-- Decimal digits of a natural number, as runes. -/
def natChars (n : Nat) : List Char := (toString n).toList

/-- Modelled from the spec: `FidoAddr.String` (pkg/types, not under
src/) serializes to `Z:N/F.P`, with the point segment omitted when the
point is zero. -/
def fidoString (a : FidoAddr) : List Char :=
  natChars a.zone ++ ':' :: natChars a.net ++ '/' :: natChars a.node ++
    (if a.point = 0 then [] else '.' :: natChars a.point)

/-- Split a rune sequence on a separator rune (accumulator recursion for
`strings.Split(s, sep)` with a one-rune separator). -/
def splitCharAux (sep : Char) : List Char → List Char → List (List Char)
  | [], cur => [cur.reverse]
  | c :: cs, cur =>
    if c = sep then cur.reverse :: splitCharAux sep cs []
    else splitCharAux sep cs (c :: cur)

/-- Decimal parse of a rune sequence: some value when non-empty and all
digits, none otherwise. -/
def parseNat (l : List Char) : Option Nat :=
  if l.length ≠ 0 && l.all Char.isDigit then
    some (l.foldl (fun acc c => acc * 10 + (c.toNat - 48)) 0)
  else none

/-- Modelled from the spec: `types.AddrFromString` (pkg/types, not under
src/) — parses `zone:net/node.point` (point segment optional), failing
(`none`, mapped by callers to a zero address plus `Corrupted=true`) when
segments are non-numeric or out of the uint16 range.  The short form
`N/F` needs a caller-supplied default zone that this call site does not
provide, so it is parsed as a failure here; no claim depends on it. -/
def AddrFromString (s : List Char) : Option FidoAddr :=
  match splitCharAux ':' s [] with
  | [zonePart, rest] =>
    match splitCharAux '/' rest [] with
    | [netPart, nodeDotPoint] =>
      let (nodePart, pointPart) :=
        match splitCharAux '.' nodeDotPoint [] with
        | [n] => (n, some 0)
        | [n, p] => (n, parseNat p)
        | _ => (nodeDotPoint, none)
      match parseNat zonePart, parseNat netPart, parseNat nodePart, pointPart with
      | some z, some n, some f, some p =>
        if z < 65536 && n < 65536 && f < 65536 && p < 65536 then
          some ⟨z, n, f, p⟩
        else none
      | _, _, _, _ => none
    | _ => none
  | _ => none

/-! ## Database row models (`pkg/database/models.go`) -/

/-- `database.Link` (models.go 4–11): FTN node configuration; the list
order of the `links` table models the `id` primary-key order. -/
structure Link where
  id : Int
  stationName : List Char
  ftnAddress : List Char
  pktPassword : List Char
  password : List Char
  address : List Char
deriving DecidableEq, Repr

/-- `database.Route` (models.go 182–194): netmail routing rule with a
`nice` priority, wildcard-able match fields, and a destination link. -/
structure Route where
  id : Int
  nice : Int
  fromName : List Char
  toName : List Char
  fromAddress : List Char
  toAddress : List Char
  subject : List Char
  routeVia : Int
deriving DecidableEq, Repr

/-- `database.Echomail` (models.go 32–47): public message row; note the
dedicated `msgid` column. -/
structure Echomail where
  id : Int
  echoareaID : Int
  fromName : List Char
  toName : List Char
  fromFtnAddr : List Char
  date : Int
  subject : List Char
  message : List Char
  seenBy : List Char
  path : List Char
  msgID : List Char
deriving DecidableEq, Repr

/-- `database.Netmail` (models.go 54–70): private message row; it has no
msgid column, and `routeVia` is nullable. -/
structure Netmail where
  id : Int
  fromName : List Char
  toName : List Char
  fromAddress : List Char
  toAddress : List Char
  subject : List Char
  text : List Char
  date : Int
  routeVia : Option Int
  send : Bool
  attr : Nat
  lastModified : Int
deriving DecidableEq, Repr

/-- `database.Subscription` (models.go 77–84). -/
structure Subscription where
  linkID : Int
  echoareaID : Int
deriving DecidableEq, Repr

/-- `database.EchomailAwaiting` (models.go 91–98): outbound queue row. -/
structure EchomailAwaiting where
  linkID : Int
  echomailID : Int
deriving DecidableEq, Repr

/-- The relational store: each table as its list of rows in primary-key
(`id ASC`) order, which is the order GORM's `First`/`Offset` queries
traverse. -/
structure DB where
  links : List Link
  routes : List Route
  echomails : List Echomail
  netmails : List Netmail
  subscriptions : List Subscription
  echomailAwaiting : List EchomailAwaiting
deriving DecidableEq, Repr

/-- Autoincrement id for a new echomail row. -/
def newEchomailId (db : DB) : Int :=
  (db.echomails.map (fun e => e.id)).foldl max 0 + 1

/-- Autoincrement id for a new netmail row. -/
def newNetmailId (db : DB) : Int :=
  (db.netmails.map (fun n => n.id)).foldl max 0 + 1

/-! ## Process state: configuration, last-read store, count cache -/

/-- The configuration fields the SQL area code reads
(`config.Config.Username`, `config.Config.Chrs.Default`,
`config.Config.Chrs.JnodeDefault`, and the last-read enable flag behind
`database.IsLastReadEnabled`). -/
structure Config where
  username : List Char
  chrsDefault : List Char
  jnodeDefault : List Char
  lastReadEnabled : Bool
deriving DecidableEq, Repr

/-- The separate last-read SQLite store (`GetLastRead`/`SetLastRead`,
database lastread file): rows keyed by (username, area name).
`initialized` models `LastReadDB != nil`. -/
structure LastReadStore where
  initialized : Bool
  table : List (List Char × List Char × Nat)
deriving DecidableEq, Repr

/-- The package-level message-count cache (SQL area file, lines 20–24):
`messageCountCache` (area id → count, a missing key reading as 0),
`netmailCountCache` and `countCacheValid`. -/
structure CountCache where
  valid : Bool
  areaCounts : Int → Int
  netmailCount : Int

/-- The whole mutable process state the SQL area code touches: the
database, the count cache, the configuration, the last-read store, and
the ambient clock (`time.Now()` in Unix-milli form, as `DateHelper`
uses). -/
structure Sys where
  db : DB
  cache : CountCache
  cfg : Config
  lastReadDB : LastReadStore
  now : Int

/-- `msgapi.EchoAreaType` (msgapi areas file, lines 38–43). -/
inductive EchoAreaType where
  | netmail | bad | dupe | echo | local | noneT
deriving DecidableEq, Repr

/-- The per-instance `SQLArea` state (SQL area file, lines 27–40): area
identity, charset tag, the message-list cache validity flag, and the
in-memory last-read shadow position (a uint32). -/
structure SQLArea where
  areaID : Int
  areaName : List Char
  areaType : EchoAreaType
  chrs : List Char
  messageListValid : Bool
  lastReadPosition : Nat
deriving DecidableEq, Repr

/-- Go `uint32(i)` for an `int64` value: the low 32 bits. -/
def u32ofInt (i : Int) : Nat := (i % (2 ^ 32 : Int)).toNat

/-- Go `uint32` of a natural count. -/
def u32ofNat (n : Nat) : Nat := n % 2 ^ 32

/-- Go `uint32` subtraction `x - y` (wrapping modulo `2^32`). -/
def u32sub (x y : Nat) : Nat :=
  (x % 2 ^ 32 + (2 ^ 32 - y % 2 ^ 32)) % 2 ^ 32

/-- The echomail rows of one area in `id ASC` order — the row set behind
every `Where("echoarea_id = ?", a.areaID).Order("id ASC")` query of the
SQL area file. -/
def areaEchomails (db : DB) (a : SQLArea) : List Echomail :=
  db.echomails.filter (fun e => e.echoareaID == a.areaID)

/-- `database.GetAllEchoareaCounts` (database file, lines 140–161): the
grouped `COUNT(*)` per echoarea; a key absent from the grouped result
reads as 0, matching the `exists` check in `GetCount`. -/
def getAllEchoareaCounts (db : DB) : Int → Int :=
  fun aid => ((db.echomails.filter (fun e => e.echoareaID == aid)).length : Int)

/-- `database.GetNetmailCount` (database file, lines 164–176): total
netmail row count. -/
def getNetmailCount (db : DB) : Int := (db.netmails.length : Int)

/-- `RefreshMessageCounts` (SQL area file, lines 94–111): two bulk
queries populate the cache and mark it valid.  The database connection
is modeled as always present, so the refresh always succeeds. -/
def RefreshMessageCounts (s : Sys) : Sys :=
  { s with cache :=
    { valid := true
      areaCounts := getAllEchoareaCounts s.db
      netmailCount := getNetmailCount s.db } }

/-- `InvalidateMessageCounts` (SQL area file, lines 114–118): clears the
valid flag, the per-area map (nil, reading as 0) and the netmail
counter. -/
def InvalidateMessageCounts (s : Sys) : Sys :=
  { s with cache := { valid := false, areaCounts := fun _ => 0, netmailCount := 0 } }

/-- `IncrementMessageCount` (SQL area file, lines 121–134): a no-op when
the cache is invalid; otherwise bumps the netmail counter or the one
area counter. -/
def IncrementMessageCount (s : Sys) (areaID : Int) (isNetmail : Bool) : Sys :=
  if !s.cache.valid then s
  else if isNetmail then
    { s with cache := { s.cache with netmailCount := s.cache.netmailCount + 1 } }
  else
    { s with cache := { s.cache with areaCounts :=
        fun k => if k = areaID then s.cache.areaCounts k + 1 else s.cache.areaCounts k } }

/-- `GetCount` (SQL area file, lines 137–168): the cached count
(converted `uint32(int64)`) when the cache is valid, otherwise a direct
`COUNT(*)` over the area's rows (netmail table for the netmail area). -/
def GetCount (s : Sys) (a : SQLArea) : Nat :=
  if s.cache.valid then
    if a.areaType = .netmail then u32ofInt s.cache.netmailCount
    else u32ofInt (s.cache.areaCounts a.areaID)
  else
    if a.areaType = .netmail then u32ofNat s.db.netmails.length
    else u32ofNat (areaEchomails s.db a).length

/-- `database.GetLastRead` (database lastread file, lines 309–327):
error when the store is not initialized; otherwise the stored position,
or 0 when no row exists. -/
def GetLastRead (lr : LastReadStore) (username areaName : List Char) : Except (List Char) Nat :=
  if !lr.initialized then .error "lastread database not initialized".toList
  else
    match lr.table.find? (fun e => e.1 == username && e.2.1 == areaName) with
    | some e => .ok e.2.2
    | none => .ok 0

/-- `GetLast` (SQL area file, lines 171–185): the external last-read
store when enabled (falling back to the in-memory shadow on error),
otherwise the shadow position. -/
def GetLast (s : Sys) (a : SQLArea) : Nat :=
  if s.cfg.lastReadEnabled then
    match GetLastRead s.lastReadDB s.cfg.username a.areaName with
    | .ok p => p
    | .error _ => a.lastReadPosition
  else a.lastReadPosition

/-- `AreaHasUnreadMessages` (msgapi areas file, lines 67–69):
`GetCount() - GetLast() > 0` computed in uint32 arithmetic. -/
def AreaHasUnreadMessages (s : Sys) (a : SQLArea) : Bool :=
  u32sub (GetCount s a) (GetLast s a) > 0

/-! ## Messages -/

/-- `msgapi.Message` — the fields the SQL area code reads and writes.
Timestamps are Unix milliseconds (`DateHelper.ToUnixTime` uses
`UnixMilli`); the kludge map is modeled as an association list whose
order stands for Go's unspecified map iteration order. -/
structure Message where
  area : List Char
  msgNum : Nat
  maxNum : Nat
  fromName : List Char
  toName : List Char
  subject : List Char
  body : List Char
  dateWritten : Int
  dateArrived : Int
  attrs : List (List Char)
  kludges : List (List Char × List Char)
  corrupted : Bool
  fromAddr : FidoAddr
  toAddr : FidoAddr
deriving DecidableEq, Repr

/-- `DateHelper.FromUnixTime` (pkg/database/types.go 40–47) as a map to
Unix milliseconds: a timestamp above the year-2100 seconds value is
already milliseconds, a smaller one is seconds. -/
def fromUnixTime (timestamp : Int) : Int :=
  if timestamp > 4102444800 then timestamp else timestamp * 1000

/-- `parseNetmailAttrs` (SQL area file, lines 346–380): decode the jnode
attribute bitmask into symbolic attribute strings, in source order. -/
def parseNetmailAttrs (attr : Nat) : List (List Char) :=
  (if attr &&& 256 ≠ 0 then ["Loc".toList] else []) ++
  (if attr &&& 1 ≠ 0 then ["Pvt".toList] else []) ++
  (if attr &&& 2 ≠ 0 then ["Cra".toList] else []) ++
  (if attr &&& 4 ≠ 0 then ["Rcv".toList] else []) ++
  (if attr &&& 8 ≠ 0 then ["Snt".toList] else []) ++
  (if attr &&& 16 ≠ 0 then ["Att".toList] else []) ++
  (if attr &&& 32 ≠ 0 then ["Fwd".toList] else []) ++
  (if attr &&& 128 ≠ 0 then ["K/s".toList] else []) ++
  (if attr &&& 512 ≠ 0 then ["Hld".toList] else [])

/-- `convertAttrsToInt` (SQL area file, lines 716–743): encode symbolic
attributes back into the bitmask. -/
def convertAttrsToInt (attrs : List (List Char)) : Nat :=
  attrs.foldl (fun result attr =>
    if attr == "Loc".toList then result ||| 256
    else if attr == "Pvt".toList then result ||| 1
    else if attr == "Cra".toList then result ||| 2
    else if attr == "Rcv".toList then result ||| 4
    else if attr == "Snt".toList then result ||| 8
    else if attr == "Att".toList then result ||| 16
    else if attr == "Fwd".toList then result ||| 32
    else if attr == "K/s".toList then result ||| 128
    else if attr == "Hld".toList then result ||| 512
    else result) 0

/-- Modelled from the spec: `utils.EncodeCharmap` (pkg/utils, not under
src/) transcodes a UTF-8 string to a display charset through external
character-map tables.  The tables are outside the modeled core and no
claim depends on transcoded content, so it is modeled as the identity on
the rune sequence. -/
def encodeCharmap (s : List Char) (_charset : List Char) : List Char := s

/-- Modelled from the spec: `Message.ParseRawNoDecoding` (pkg/msgapi
message file, not under src/) — "Kludge lines are extracted from the raw
stored text" with no charset auto-decoding: each control-A-prefixed line
of the body yields a kludge entry (first word as key, remainder as
value). -/
def parseRawNoDecoding (m : Message) : Message :=
  { m with kludges :=
    (splitCharAux '\r' m.body []).filterMap (fun l =>
      match l with
      | c :: rest =>
        if c = Char.ofNat 0x01 then
          some (rest.takeWhile (fun x => x ≠ ' '),
                (rest.dropWhile (fun x => x ≠ ' ')).drop 1)
        else none
      | [] => none) }

/-- The display-charset re-encode step shared by both message readers
(SQL area file, lines 266–274 and 332–340): the first space-separated
token of the configured default charset, applied when it is not UTF-8. -/
def applyDisplayCharset (cfg : Config) (m : Message) : Message :=
  let displayCharset := cfg.chrsDefault.takeWhile (fun c => c ≠ ' ')
  if displayCharset ≠ "UTF-8".toList then
    { m with
      body := encodeCharmap m.body displayCharset
      fromName := encodeCharmap m.fromName displayCharset
      toName := encodeCharmap m.toName displayCharset
      subject := encodeCharmap m.subject displayCharset }
  else m

/-- The result of `GetMsg`: a message, the `(nil, nil)` NotFound outcome,
or an error. -/
inductive GetMsgResult where
  | found : Message → GetMsgResult
  | notFound : GetMsgResult
  | err : List Char → GetMsgResult
deriving DecidableEq, Repr

/-- Row-to-Message conversion of `getEchomailMessage` (SQL area file,
lines 233–275): struct fields from the row, a failed from-address parse
substituting the zero address and marking the message corrupted, a
zero-value recipient address, kludge extraction, and the display-charset
re-encode. -/
def buildEchoMessage (s : Sys) (a : SQLArea) (row : Echomail) (position : Nat) : Message :=
  let msg : Message :=
    { area := a.areaName
      msgNum := position
      maxNum := GetCount s a
      fromName := row.fromName
      toName := row.toName
      subject := row.subject
      body := NormalizeFromStorage row.message
      dateWritten := fromUnixTime row.date
      dateArrived := fromUnixTime row.date
      attrs := []
      kludges := []
      corrupted := false
      fromAddr := zeroAddr
      toAddr := zeroAddr }
  let msg :=
    match AddrFromString row.fromFtnAddr with
    | some ad => { msg with fromAddr := ad }
    | none => { msg with fromAddr := zeroAddr, corrupted := true }
  applyDisplayCharset s.cfg (parseRawNoDecoding msg)

/-- Row-to-Message conversion of `getNetmailMessage` (SQL area file,
lines 296–341): both addresses parsed (each failure substituting the
zero address and marking the message corrupted), attribute bitflags
decoded, kludge extraction, and the display-charset re-encode. -/
def buildNetmailMessage (s : Sys) (a : SQLArea) (row : Netmail) (position : Nat) : Message :=
  let msg : Message :=
    { area := a.areaName
      msgNum := position
      maxNum := GetCount s a
      fromName := row.fromName
      toName := row.toName
      subject := row.subject
      body := NormalizeFromStorage row.text
      dateWritten := fromUnixTime row.date
      dateArrived := fromUnixTime row.date
      attrs := parseNetmailAttrs row.attr
      kludges := []
      corrupted := false
      fromAddr := zeroAddr
      toAddr := zeroAddr }
  let msg :=
    match AddrFromString row.fromAddress with
    | some ad => { msg with fromAddr := ad }
    | none => { msg with fromAddr := zeroAddr, corrupted := true }
  let msg :=
    match AddrFromString row.toAddress with
    | some ad => { msg with toAddr := ad }
    | none => { msg with toAddr := zeroAddr, corrupted := true }
  applyDisplayCharset s.cfg (parseRawNoDecoding msg)

/-- `getEchomailMessage` (SQL area file, lines 216–277): fetch the row at
offset `position - 1` of the area's rows in `id ASC` order;
`ErrRecordNotFound` becomes the `(nil, nil)` NotFound outcome. -/
def getEchomailMessage (s : Sys) (a : SQLArea) (position : Nat) : GetMsgResult :=
  match (areaEchomails s.db a)[position - 1]? with
  | none => .notFound
  | some row => .found (buildEchoMessage s a row position)

/-- `getNetmailMessage` (SQL area file, lines 280–343): same fetch over
the whole netmail table. -/
def getNetmailMessage (s : Sys) (a : SQLArea) (position : Nat) : GetMsgResult :=
  match s.db.netmails[position - 1]? with
  | none => .notFound
  | some row => .found (buildNetmailMessage s a row position)

/-- `GetMsg` (SQL area file, lines 203–213): position 0 is treated as
position 1; netmail and echomail areas dispatch to their readers. -/
def GetMsg (s : Sys) (a : SQLArea) (position : Nat) : GetMsgResult :=
  let position := if position = 0 then 1 else position
  if a.areaType = .netmail then getNetmailMessage s a position
  else getEchomailMessage s a position

/-! ## Saving messages and netmail routing -/

/-- Go map read `msg.Kludges[key]`: the stored value, or the empty
string for a missing key. -/
def kludgeLookup (ks : List (List Char × List Char)) (key : List Char) : List Char :=
  match ks.find? (fun e => e.1 == key) with
  | some e => e.2
  | none => []

/-- Modelled from the spec: `Message.MakeBody` (pkg/msgapi message file,
not under src/) prepares the in-memory body before persisting using the
area's line-ending adapters ("converts body to storage line endings") —
the kludge serialization the save functions perform themselves is
modeled separately below. -/
def makeBody (a : SQLArea) (m : Message) : Message :=
  let _ := a
  { m with body := NormalizeForStorage m.body }

/-- The CHRS override of both save paths (SQL area file, lines 497–503
and 593–599): when `config.Config.Chrs.JnodeDefault` is non-empty, both
`CHRS:` and `CHRS` entries are removed and a `CHRS:` entry with the
configured value is set. -/
def overrideChrs (cfg : Config) (ks : List (List Char × List Char)) : List (List Char × List Char) :=
  if cfg.jnodeDefault.length ≠ 0 then
    (ks.filter (fun e => !(e.1 == "CHRS:".toList) && !(e.1 == "CHRS".toList))) ++
      [("CHRS:".toList, cfg.jnodeDefault)]
  else ks

/-- The inline kludge block of both save paths (SQL area file, lines
506–513 and 602–608): the `for kl, v := range msg.Kludges` loop renders
every kludge except `MSGID:` as `\x01KEY value\x0d` and concatenates, in
map iteration order (the association-list order). -/
def serializeKludges : List (List Char × List Char) → List Char
  | [] => []
  | e :: ks =>
    (if e.1 == "MSGID:".toList then []
     else Char.ofNat 0x01 :: e.1 ++ ' ' :: e.2 ++ [Char.ofNat 0x0D]) ++
    serializeKludges ks

/-- Whether a routing rule matches the message (the `WHERE` clause of
`findNetmailRoute`, SQL area file, lines 697–703): each field equals the
message's corresponding field or is the wildcard `*`. -/
def routeMatches (msg : Message) (destAddr : List Char) (r : Route) : Bool :=
  (r.fromAddress == fidoString msg.fromAddr || r.fromAddress == "*".toList) &&
  (r.toAddress == destAddr || r.toAddress == "*".toList) &&
  (r.fromName == msg.fromName || r.fromName == "*".toList) &&
  (r.toName == msg.toName || r.toName == "*".toList) &&
  (r.subject == msg.subject || r.subject == "*".toList)

/-- `Order("nice ASC").First` over a row list: the first row attaining
the minimal `nice` value, none for an empty list. -/
def minNiceRoute (rs : List Route) : Option Route :=
  rs.foldl (fun acc r =>
    match acc with
    | none => some r
    | some b => if r.nice < b.nice then some r else some b) none

/-- `findNetmailRoute` (SQL area file, lines 659–713): step 1 an exact
link match on the destination address (direct: null route); step 2, for
a non-zero point, a link match on the boss address (point forced to 0):
route via that link; step 3 the first matching routing rule by ascending
`nice`: route via its link; otherwise the no-route error. -/
def findNetmailRoute (db : DB) (msg : Message) : Except (List Char) (Option Int) :=
  let destAddr := fidoString msg.toAddr
  match db.links.find? (fun l => l.ftnAddress == destAddr) with
  | some _ => .ok none
  | none =>
    let bossLink : Option Link :=
      if msg.toAddr.point ≠ 0 then
        db.links.find? (fun l => l.ftnAddress == fidoString { msg.toAddr with point := 0 })
      else none
    match bossLink with
    | some link => .ok (some link.id)
    | none =>
      match minNiceRoute (db.routes.filter (routeMatches msg destAddr)) with
      | some route => .ok (some route.routeVia)
      | none => .error ("no route found for netmail to ".toList ++ destAddr)

/-- `queueEchomailForSubscribers` (SQL area file, lines 550–578): one
outbound-queue row per link subscribed to the area. -/
def queueEchomailForSubscribers (s : Sys) (a : SQLArea) (echomailID : Int) : Sys :=
  let entries := (s.db.subscriptions.filter (fun sub => sub.echoareaID == a.areaID)).map
    (fun sub => ({ linkID := sub.linkID, echomailID := echomailID } : EchomailAwaiting))
  { s with db := { s.db with echomailAwaiting := s.db.echomailAwaiting ++ entries } }

/-- The shared preparation both save paths perform on the message
before serializing (SQL area file, lines 489–503 and 585–599): set the
area object, prepare the body, and apply the CHRS override to the
kludges. -/
def prepareMsg (cfg : Config) (a : SQLArea) (msg : Message) : Message :=
  let m := makeBody a msg
  { m with kludges := overrideChrs cfg m.kludges }

/-- The echomail row built by `saveEchomailMessage` (SQL area file,
lines 515–526) from the prepared message: the inline kludge block plus
body as the stored message text, the `MSGID:` kludge in the dedicated
msgid column, seen-by and path left for the tosser. -/
def echomailRow (s : Sys) (a : SQLArea) (msg : Message) : Echomail :=
  let m := prepareMsg s.cfg a msg
  { id := newEchomailId s.db
    echoareaID := a.areaID
    fromName := m.fromName
    toName := m.toName
    fromFtnAddr := fidoString m.fromAddr
    date := m.dateWritten
    subject := m.subject
    message := serializeKludges m.kludges ++ m.body
    seenBy := []
    path := []
    msgID := kludgeLookup m.kludges "MSGID:".toList }

/-- `saveEchomailMessage` (SQL area file, lines 488–547): build and
insert the row, fan out to subscribers, invalidate the message-list
cache and increment the count cache. -/
def saveEchomailMessage (s : Sys) (a : SQLArea) (msg : Message) : Sys × SQLArea :=
  let row := echomailRow s a msg
  let s1 := { s with db := { s.db with echomails := s.db.echomails ++ [row] } }
  let s2 := queueEchomailForSubscribers s1 a row.id
  let s3 := IncrementMessageCount s2 a.areaID false
  (s3, { a with messageListValid := false })

/-- The netmail row built by `saveNetmailMessage` (SQL area file, lines
612–635) from the prepared message: the inline kludge block (MSGID
excluded) plus body as the stored text, encoded attribute bitmask,
`send = false`, and the resolved route — a no-route error is logged and
ignored, leaving a null route. -/
def netmailRow (s : Sys) (a : SQLArea) (msg : Message) : Netmail :=
  let m := prepareMsg s.cfg a msg
  { id := newNetmailId s.db
    fromName := m.fromName
    toName := m.toName
    fromAddress := fidoString m.fromAddr
    toAddress := fidoString m.toAddr
    subject := m.subject
    text := serializeKludges m.kludges ++ m.body
    date := m.dateWritten
    send := false
    attr := convertAttrsToInt m.attrs
    lastModified := s.now
    routeVia :=
      match findNetmailRoute s.db m with
      | .ok r => r
      | .error _ => none }

/-- `saveNetmailMessage` (SQL area file, lines 581–656): build and
insert the row (always, also when routing failed), invalidate the
message-list cache and increment the netmail count cache. -/
def saveNetmailMessage (s : Sys) (a : SQLArea) (msg : Message) : Sys × SQLArea :=
  let row := netmailRow s a msg
  let s1 := { s with db := { s.db with netmails := s.db.netmails ++ [row] } }
  let s2 := IncrementMessageCount s1 0 true
  (s2, { a with messageListValid := false })

/-- `SaveMsg` (SQL area file, lines 479–485). -/
def SaveMsg (s : Sys) (a : SQLArea) (msg : Message) : Sys × SQLArea :=
  if a.areaType = .netmail then saveNetmailMessage s a msg
  else saveEchomailMessage s a msg

/-! ## Deleting messages -/

/-- `deleteEchomailMessage` (SQL area file, lines 759–784): find the row
at the offset (same ordering as `GetMsg`); a missing row is an error
that changes nothing; otherwise the row is deleted by primary key and
the message-list cache invalidated. -/
def deleteEchomailMessage (s : Sys) (a : SQLArea) (position : Nat) :
    Sys × SQLArea × Except (List Char) Unit :=
  match (areaEchomails s.db a)[position - 1]? with
  | none => (s, a, .error "error finding echomail message to delete".toList)
  | some row =>
    let s := { s with db := { s.db with
      echomails := s.db.echomails.filter (fun e => !(e.id == row.id)) } }
    (s, { a with messageListValid := false }, .ok ())

/-- `deleteNetmailMessage` (SQL area file, lines 787–811). -/
def deleteNetmailMessage (s : Sys) (a : SQLArea) (position : Nat) :
    Sys × SQLArea × Except (List Char) Unit :=
  match s.db.netmails[position - 1]? with
  | none => (s, a, .error "error finding netmail message to delete".toList)
  | some row =>
    let s := { s with db := { s.db with
      netmails := s.db.netmails.filter (fun e => !(e.id == row.id)) } }
    (s, { a with messageListValid := false }, .ok ())

/-- `DelMsg` (SQL area file, lines 746–756): position 0 is treated as
position 1, then dispatch by area type. -/
def DelMsg (s : Sys) (a : SQLArea) (position : Nat) :
    Sys × SQLArea × Except (List Char) Unit :=
  let position := if position = 0 then 1 else position
  if a.areaType = .netmail then deleteNetmailMessage s a position
  else deleteEchomailMessage s a position

/-- The true row count of an area: the direct aggregate over the area's
messages (netmail table for the netmail area). -/
def areaRowCount (s : Sys) (a : SQLArea) : Nat :=
  if a.areaType = .netmail then s.db.netmails.length
  else (areaEchomails s.db a).length

/-! ## Helper lemmas -/

theorem head?_dropWhile_nl (l : List Char) :
    (l.dropWhile (fun c => c = '\n')).head? ≠ some '\n' := by
  induction l with
  | nil => simp
  | cons c cs ih =>
    by_cases h : c = '\n'
    · simpa [List.dropWhile_cons, h] using ih
    · simp [List.dropWhile_cons, h]

theorem cr_not_mem_map_crlf (body : List Char) :
    '\r' ∉ body.map (fun c => if c = '\r' then '\n' else c) := by
  intro hmem
  rcases List.mem_map.mp hmem with ⟨x, _, hx⟩
  by_cases h : x = '\r' <;> simp [h] at hx

theorem u32ofInt_natCast (n : Nat) (h : n < 2 ^ 32) : u32ofInt (n : Int) = n := by
  unfold u32ofInt
  rw [Int.emod_eq_of_lt (by positivity) (by exact_mod_cast h)]
  exact Int.toNat_natCast n

theorem u32ofInt_lt (i : Int) : u32ofInt i < 2 ^ 32 := by
  unfold u32ofInt
  have h1 : i % (2 ^ 32 : Int) < (2 ^ 32 : Int) :=
    Int.emod_lt_of_pos i (by norm_num)
  omega

theorem GetCount_lt (s : Sys) (a : SQLArea) : GetCount s a < 2 ^ 32 := by
  unfold GetCount u32ofNat
  split
  · split <;> exact u32ofInt_lt _
  · split <;> exact Nat.mod_lt _ (by norm_num)

theorem u32sub_pos_iff (x y : Nat) (hx : x < 2 ^ 32) (hy : y < 2 ^ 32) :
    0 < u32sub x y ↔ x ≠ y := by
  unfold u32sub
  rw [Nat.mod_eq_of_lt hx, Nat.mod_eq_of_lt hy]
  have h32 : (2 : Nat) ^ 32 = 4294967296 := by norm_num
  rw [h32] at hx hy ⊢
  omega

/-! ## Concrete fixtures shared by the witnesses and counterexamples -/

/-- An empty database. -/
def emptyDB : DB :=
  { links := [], routes := [], echomails := [], netmails := []
    subscriptions := [], echomailAwaiting := [] }

/-- An invalid (cleared) count cache. -/
def invalidCache : CountCache :=
  { valid := false, areaCounts := fun _ => 0, netmailCount := 0 }

/-- A plain configuration: UTF-8 display charset, no jnode CHRS
override, last-read store disabled. -/
def cfgPlain : Config :=
  { username := "sysop".toList, chrsDefault := "UTF-8 2".toList
    jnodeDefault := [], lastReadEnabled := false }

/-- A disabled last-read store. -/
def lrOff : LastReadStore := { initialized := false, table := [] }

/-- Process state over the empty database with an invalid cache. -/
def sysEmpty : Sys :=
  { db := emptyDB, cache := invalidCache, cfg := cfgPlain, lastReadDB := lrOff, now := 0 }

/-- An echomail area whose in-memory last-read shadow is 1. -/
def areaEcho1Read1 : SQLArea :=
  { areaID := 1, areaName := "TEST".toList, areaType := .echo, chrs := []
    messageListValid := true, lastReadPosition := 1 }

/-! ## Claim theorems -/

/-- C7: `NormalizeForStorage` produces a string with no carriage
returns (every CR having been replaced by LF) that ends with exactly one
trailing line feed, and `NormalizeFromStorage` is the inverse character
substitution, replacing every line feed by a carriage return. -/
theorem normalize_line_endings (body : List Char) :
    '\r' ∉ NormalizeForStorage body ∧
    (NormalizeForStorage body).getLast? = some '\n' ∧
    (NormalizeForStorage body).dropLast.getLast? ≠ some '\n' ∧
    NormalizeFromStorage body = body.map (fun c => if c = '\n' then '\r' else c) := by
  unfold NormalizeForStorage
  refine ⟨?_, ?_, ?_, rfl⟩
  · intro hmem
    rcases List.mem_append.mp hmem with h | h
    · have h1 := List.mem_reverse.mp h
      have h2 := (List.dropWhile_sublist _).mem h1
      exact cr_not_mem_map_crlf body (List.mem_reverse.mp h2)
    · simp at h
  · exact List.getLast?_concat _
  · rw [List.dropLast_concat, List.getLast?_reverse]
    exact head?_dropWhile_nl _

/-- C3 counterexample: the claim states
`IsQuoteEnhanced("Alphabet> x", []) = false`, but the code returns true
on that input: with an empty previous-lines context, exhausting the
context defaults to quoted. -/
theorem quote_enhanced_alphabet_counterexample :
    IsQuoteEnhanced "Alphabet> x".toList [] = true := by decide

/-- C3 (amended): `IsQuoteEnhanced("Bob> hello", [])` is true (at most 3
letters before the `>`); `IsQuoteEnhanced("Alphabet> x", [])` is also
true, because with 4 or more letters before the `>` the decision falls
through to the previous-lines context and an exhausted (here empty)
context defaults to quoted; a context line with an unmatched `<` (such
as `"x <y"`) makes the same line classify as false. -/
theorem quote_enhanced_examples :
    IsQuoteEnhanced "Bob> hello".toList [] = true ∧
    IsQuoteEnhanced "Alphabet> x".toList [] = true ∧
    IsQuoteEnhanced "Alphabet> x".toList ["x <y".toList] = false := by
  refine ⟨by decide, by decide, by decide⟩

/-- C2: `GetMsg(0)` returns the same result as `GetMsg(1)`; and for any
position strictly greater than `GetCount()` — with the cache consistent
with the area's contents, i.e. the area's row count not exceeding
`GetCount()` — `GetMsg` returns the NotFound outcome (no message, no
error) rather than an error. -/
theorem getmsg_zero_and_beyond_count (s : Sys) (a : SQLArea) :
    GetMsg s a 0 = GetMsg s a 1 ∧
    ∀ position : Nat, areaRowCount s a ≤ GetCount s a →
      GetCount s a < position → GetMsg s a position = .notFound := by
  constructor
  · rfl
  · intro position h1 h2
    have hpos : ¬ position = 0 := by omega
    unfold GetMsg
    by_cases ht : a.areaType = .netmail
    · have hlen : s.db.netmails.length ≤ position - 1 := by
        have := h1; unfold areaRowCount at this; rw [if_pos ht] at this; omega
      simp only [hpos, if_false, ht, if_true, getNetmailMessage,
        List.getElem?_eq_none hlen]
    · have hlen : (areaEchomails s.db a).length ≤ position - 1 := by
        have := h1; unfold areaRowCount at this; rw [if_neg ht] at this; omega
      simp only [hpos, if_false, ht, if_true, getEchomailMessage,
        List.getElem?_eq_none hlen]

/-- C10: for any position strictly greater than the area's current
message count, `DelMsg` returns an error and changes nothing — the
database, the count cache and the message-list validity flag are all
left as they were — while `GetMsg` at the same position returns the
NotFound outcome without an error. -/
theorem delmsg_beyond_count_errors (s : Sys) (a : SQLArea) (position : Nat)
    (h : areaRowCount s a < position) :
    (∃ e, DelMsg s a position = (s, a, .error e)) ∧
    GetMsg s a position = .notFound := by
  have hpos : ¬ position = 0 := by omega
  constructor
  · unfold DelMsg
    by_cases ht : a.areaType = .netmail
    · have hlen : s.db.netmails.length ≤ position - 1 := by
        have := h; unfold areaRowCount at this; rw [if_pos ht] at this; omega
      refine ⟨"error finding netmail message to delete".toList, ?_⟩
      simp only [hpos, if_false, ht, if_true, deleteNetmailMessage,
        List.getElem?_eq_none hlen]
    · have hlen : (areaEchomails s.db a).length ≤ position - 1 := by
        have := h; unfold areaRowCount at this; rw [if_neg ht] at this; omega
      refine ⟨"error finding echomail message to delete".toList, ?_⟩
      simp only [hpos, if_false, ht, if_true, deleteEchomailMessage,
        List.getElem?_eq_none hlen]
  · unfold GetMsg
    by_cases ht : a.areaType = .netmail
    · have hlen : s.db.netmails.length ≤ position - 1 := by
        have := h; unfold areaRowCount at this; rw [if_pos ht] at this; omega
      simp only [hpos, if_false, ht, if_true, getNetmailMessage,
        List.getElem?_eq_none hlen]
    · have hlen : (areaEchomails s.db a).length ≤ position - 1 := by
        have := h; unfold areaRowCount at this; rw [if_neg ht] at this; omega
      simp only [hpos, if_false, ht, if_true, getEchomailMessage,
        List.getElem?_eq_none hlen]

/-- C8 counterexample: the claim states that `AreaHasUnreadMessages`
reports unread messages exactly when `GetCount()` is strictly greater
than `GetLast()`; on an empty area whose last-read position is 1 the
code reports unread (the uint32 subtraction `0 - 1` wraps to
`2^32 - 1 > 0`) although `GetCount() > GetLast()` is false. -/
theorem unread_gt_counterexample :
    AreaHasUnreadMessages sysEmpty areaEcho1Read1 = true ∧
    ¬ GetLast sysEmpty areaEcho1Read1 < GetCount sysEmpty areaEcho1Read1 := by
  exact ⟨by decide, by decide⟩

/-- C8 (amended): the unread count `GetCount() - GetLast()` is computed
in uint32 arithmetic and is therefore never negative, and
`AreaHasUnreadMessages` reports unread messages exactly when
`GetCount() ≠ GetLast()`: in particular when `GetLast()` exceeds
`GetCount()` the subtraction wraps around and unread messages are
(spuriously) reported. -/
theorem unread_iff_count_ne_last (s : Sys) (a : SQLArea)
    (h : GetLast s a < 2 ^ 32) :
    AreaHasUnreadMessages s a = true ↔ GetCount s a ≠ GetLast s a := by
  unfold AreaHasUnreadMessages
  rw [decide_eq_true_eq]
  exact u32sub_pos_iff _ _ (GetCount_lt s a) h

/-- Witness for C8's amended theorem at a concrete state: the last-read
position 1 is a uint32 value, and on the empty area the code reports
unread because `0 ≠ 1`. -/
theorem unread_iff_count_ne_last_witness :
    GetLast sysEmpty areaEcho1Read1 < 2 ^ 32 ∧
    (AreaHasUnreadMessages sysEmpty areaEcho1Read1 = true ↔
      GetCount sysEmpty areaEcho1Read1 ≠ GetLast sysEmpty areaEcho1Read1) :=
  ⟨by decide, unread_iff_count_ne_last sysEmpty areaEcho1Read1 (by decide)⟩

/-- C6: `IncrementMessageCount` leaves the count cache (indeed the whole
process state) unchanged whenever the cache is invalid; when the cache
is valid it increases exactly the one relevant counter by one (the
netmail total for netmail, the given area's counter otherwise, all other
state unchanged); and immediately after `RefreshMessageCounts`,
`GetCount()` of every area equals the direct aggregate count over that
area's messages. -/
theorem count_cache_contract (s : Sys) (areaID : Int) (isNetmail : Bool) :
    (s.cache.valid = false → IncrementMessageCount s areaID isNetmail = s) ∧
    (s.cache.valid = true → isNetmail = true →
      (IncrementMessageCount s areaID isNetmail).cache.netmailCount =
        s.cache.netmailCount + 1 ∧
      (IncrementMessageCount s areaID isNetmail).cache.areaCounts = s.cache.areaCounts ∧
      (IncrementMessageCount s areaID isNetmail).cache.valid = s.cache.valid ∧
      (IncrementMessageCount s areaID isNetmail).db = s.db) ∧
    (s.cache.valid = true → isNetmail = false →
      (IncrementMessageCount s areaID isNetmail).cache.areaCounts areaID =
        s.cache.areaCounts areaID + 1 ∧
      (∀ k, k ≠ areaID →
        (IncrementMessageCount s areaID isNetmail).cache.areaCounts k =
          s.cache.areaCounts k) ∧
      (IncrementMessageCount s areaID isNetmail).cache.netmailCount =
        s.cache.netmailCount ∧
      (IncrementMessageCount s areaID isNetmail).cache.valid = s.cache.valid ∧
      (IncrementMessageCount s areaID isNetmail).db = s.db) ∧
    (∀ a : SQLArea, areaRowCount s a < 2 ^ 32 →
      GetCount (RefreshMessageCounts s) a = areaRowCount s a) := by
  refine ⟨?_, ?_, ?_, ?_⟩
  · intro hv
    unfold IncrementMessageCount
    rw [hv]
    rfl
  · intro hv hn
    unfold IncrementMessageCount
    rw [hv, hn]
    exact ⟨rfl, rfl, hv, rfl⟩
  · intro hv hn
    unfold IncrementMessageCount
    rw [hv, hn]
    refine ⟨by simp, fun k hk => by simp [hk], rfl, hv, rfl⟩
  · intro a ha
    unfold GetCount RefreshMessageCounts
    simp only
    unfold areaRowCount at ha ⊢
    by_cases ht : a.areaType = .netmail
    · rw [if_pos ht] at ha ⊢
      simp only [if_pos rfl, ht, if_pos rfl]
      unfold getNetmailCount
      exact u32ofInt_natCast _ ha
    · rw [if_neg ht] at ha ⊢
      simp only [if_pos rfl, ht, if_neg ht]
      unfold getAllEchoareaCounts areaEchomails
      exact u32ofInt_natCast _ ha

/-- Witness for C6 at concrete states: incrementing over the invalid
cache of `sysEmpty` changes nothing, and after a refresh over the empty
database the netmail area's count equals the aggregate count 0. -/
theorem count_cache_contract_witness :
    IncrementMessageCount sysEmpty 1 false = sysEmpty ∧
    GetCount (RefreshMessageCounts sysEmpty)
      { areaID := 0, areaName := "Netmail".toList, areaType := .netmail, chrs := []
        messageListValid := false, lastReadPosition := 0 } =
      areaRowCount sysEmpty
      { areaID := 0, areaName := "Netmail".toList, areaType := .netmail, chrs := []
        messageListValid := false, lastReadPosition := 0 } :=
  ⟨(count_cache_contract sysEmpty 1 false).1 rfl,
   (count_cache_contract sysEmpty 1 false).2.2.2 _ (by decide)⟩

/-- Witness for C2 at a concrete state: the empty area, where position
1 lies beyond the count 0 and yields NotFound. -/
theorem getmsg_zero_and_beyond_count_witness :
    GetMsg sysEmpty areaEcho1Read1 0 = GetMsg sysEmpty areaEcho1Read1 1 ∧
    GetMsg sysEmpty areaEcho1Read1 1 = .notFound :=
  ⟨(getmsg_zero_and_beyond_count sysEmpty areaEcho1Read1).1,
   (getmsg_zero_and_beyond_count sysEmpty areaEcho1Read1).2 1 (by decide) (by decide)⟩

/-- Witness for C10 at a concrete state: deleting position 1 of the
empty area errors and leaves the state untouched, while `GetMsg` yields
NotFound. -/
theorem delmsg_beyond_count_errors_witness :
    (∃ e, DelMsg sysEmpty areaEcho1Read1 1 = (sysEmpty, areaEcho1Read1, .error e)) ∧
    GetMsg sysEmpty areaEcho1Read1 1 = .notFound :=
  delmsg_beyond_count_errors sysEmpty areaEcho1Read1 1 (by decide)

/-! ## Kludge serialization lemmas (for C9) -/

theorem serializeKludges_append (l1 l2 : List (List Char × List Char)) :
    serializeKludges (l1 ++ l2) = serializeKludges l1 ++ serializeKludges l2 := by
  induction l1 with
  | nil => rfl
  | cons e l1 ih => simp [serializeKludges, ih]

theorem serializeKludges_filter_msgid (ks : List (List Char × List Char)) :
    serializeKludges (ks.filter (fun e => !(e.1 == "MSGID:".toList))) =
      serializeKludges ks := by
  induction ks with
  | nil => rfl
  | cons e ks ih =>
    rw [List.filter_cons]
    by_cases h : e.1 = "MSGID:".toList
    · simp only [h, beq_self_eq_true, Bool.not_true, Bool.false_eq_true, if_false]
      rw [ih]
      simp [serializeKludges, h]
    · have hb : (e.1 == "MSGID:".toList) = false := beq_eq_false_iff_ne.mpr h
      simp only [hb, Bool.not_false, if_true]
      simp only [serializeKludges, hb, Bool.false_eq_true, if_false, ih]

theorem filter_swap {α : Type} (p q : α → Bool) (l : List α) :
    (l.filter p).filter q = (l.filter q).filter p := by
  rw [List.filter_filter, List.filter_filter]
  exact List.filter_congr (fun a _ => Bool.and_comm _ _)

theorem serialize_override_filter (cfg : Config) (ks : List (List Char × List Char)) :
    serializeKludges (overrideChrs cfg (ks.filter (fun e => !(e.1 == "MSGID:".toList)))) =
      serializeKludges (overrideChrs cfg ks) := by
  unfold overrideChrs
  by_cases h : cfg.jnodeDefault.length ≠ 0
  · rw [if_pos h, if_pos h, serializeKludges_append, serializeKludges_append]
    congr 1
    rw [filter_swap]
    exact serializeKludges_filter_msgid _
  · rw [if_neg h, if_neg h]
    exact serializeKludges_filter_msgid ks

theorem IncrementMessageCount_db (s : Sys) (areaID : Int) (isNetmail : Bool) :
    (IncrementMessageCount s areaID isNetmail).db = s.db := by
  unfold IncrementMessageCount
  split
  · rfl
  · split <;> rfl

theorem saveNetmailMessage_netmails (s : Sys) (a : SQLArea) (msg : Message) :
    (saveNetmailMessage s a msg).1.db.netmails =
      s.db.netmails ++ [netmailRow s a msg] := by
  show (IncrementMessageCount _ 0 true).db.netmails = _
  rw [IncrementMessageCount_db]

theorem queueEchomail_echomails (s : Sys) (a : SQLArea) (i : Int) :
    (queueEchomailForSubscribers s a i).db.echomails = s.db.echomails := rfl

theorem saveEchomailMessage_echomails (s : Sys) (a : SQLArea) (msg : Message) :
    (saveEchomailMessage s a msg).1.db.echomails =
      s.db.echomails ++ [echomailRow s a msg] := by
  show (IncrementMessageCount _ a.areaID false).db.echomails = _
  rw [IncrementMessageCount_db, queueEchomail_echomails]

/-- C9: for a persisted netmail message the `MSGID:` kludge is excluded
from the serialized inline kludge block, and — the netmail row having no
msgid column — the MSGID value is not persisted at all: deleting the
`MSGID:` kludge entries from the message yields the identical result
state; for echomail the `MSGID:` kludge value is stored in the row's
dedicated msgid column. -/
theorem msgid_not_persisted_netmail (s : Sys) (a : SQLArea) (msg : Message) :
    ((saveNetmailMessage s a msg).1.db.netmails = s.db.netmails ++ [netmailRow s a msg] ∧
     (netmailRow s a msg).text = serializeKludges ((overrideChrs s.cfg msg.kludges).filter
         (fun e => !(e.1 == "MSGID:".toList))) ++ NormalizeForStorage msg.body) ∧
    saveNetmailMessage s a msg =
      saveNetmailMessage s a
        { msg with kludges := msg.kludges.filter (fun e => !(e.1 == "MSGID:".toList)) } ∧
    ((saveEchomailMessage s a msg).1.db.echomails = s.db.echomails ++ [echomailRow s a msg] ∧
     (echomailRow s a msg).msgID =
       kludgeLookup (overrideChrs s.cfg msg.kludges) "MSGID:".toList) := by
  refine ⟨⟨saveNetmailMessage_netmails s a msg, ?_⟩, ?_, ⟨saveEchomailMessage_echomails s a msg, rfl⟩⟩
  · show serializeKludges (overrideChrs s.cfg msg.kludges) ++ NormalizeForStorage msg.body = _
    rw [serializeKludges_filter_msgid]
  · have hrow : netmailRow s a
        { msg with kludges := msg.kludges.filter (fun e => !(e.1 == "MSGID:".toList)) } =
        netmailRow s a msg := by
      simp only [netmailRow, prepareMsg, makeBody]
      congr 1
      exact congrArg (fun t => t ++ NormalizeForStorage msg.body)
        (serialize_override_filter s.cfg msg.kludges)
    unfold saveNetmailMessage
    rw [hrow]

/-- C1: every netmail saved through the netmail save path is inserted
(also on routing failure, then with a null route), its stored route
being the result of `findNetmailRoute`; and `findNetmailRoute` resolves
in strict priority order: (1) a link whose ftn_address equals the
destination address exactly gives the direct (null) route; (2)
otherwise, for a destination with non-zero point, a link for the same
address with point 0 gives that link's id; (3) otherwise the first
routing rule by ascending nice whose from-address, to-address,
from-name, to-name and subject each equal the message's corresponding
field or are `*` gives its route_via link; (4) otherwise a no-route
error, the message still being inserted with a null route. -/
theorem netmail_route_priority (s : Sys) (a : SQLArea) (msg : Message) :
    ((saveNetmailMessage s a msg).1.db.netmails = s.db.netmails ++ [netmailRow s a msg] ∧
     (netmailRow s a msg).routeVia =
       (match findNetmailRoute s.db msg with
        | .ok r => r
        | .error _ => none)) ∧
    (∀ l, s.db.links.find? (fun x => x.ftnAddress == fidoString msg.toAddr) = some l →
      findNetmailRoute s.db msg = .ok none) ∧
    (s.db.links.find? (fun x => x.ftnAddress == fidoString msg.toAddr) = none →
      msg.toAddr.point ≠ 0 →
      ∀ l, s.db.links.find?
          (fun x => x.ftnAddress == fidoString { msg.toAddr with point := 0 }) = some l →
        findNetmailRoute s.db msg = .ok (some l.id)) ∧
    (s.db.links.find? (fun x => x.ftnAddress == fidoString msg.toAddr) = none →
      (msg.toAddr.point = 0 ∨
        s.db.links.find?
          (fun x => x.ftnAddress == fidoString { msg.toAddr with point := 0 }) = none) →
      ∀ r, minNiceRoute (s.db.routes.filter (routeMatches msg (fidoString msg.toAddr))) = some r →
        findNetmailRoute s.db msg = .ok (some r.routeVia)) ∧
    (s.db.links.find? (fun x => x.ftnAddress == fidoString msg.toAddr) = none →
      (msg.toAddr.point = 0 ∨
        s.db.links.find?
          (fun x => x.ftnAddress == fidoString { msg.toAddr with point := 0 }) = none) →
      minNiceRoute (s.db.routes.filter (routeMatches msg (fidoString msg.toAddr))) = none →
      (∃ e, findNetmailRoute s.db msg = .error e) ∧
      (netmailRow s a msg).routeVia = none) := by
  have hroute : findNetmailRoute s.db (prepareMsg s.cfg a msg) = findNetmailRoute s.db msg := rfl
  refine ⟨⟨saveNetmailMessage_netmails s a msg, ?_⟩, ?_, ?_, ?_, ?_⟩
  · show (match findNetmailRoute s.db (prepareMsg s.cfg a msg) with
      | Except.ok r => r
      | Except.error _ => none) = _
    rw [hroute]
  · intro l hl
    simp only [findNetmailRoute]
    rw [hl]
  · intro hdirect hp l hboss
    simp only [findNetmailRoute]
    rw [hdirect]
    simp only [if_pos hp, hboss]
  · intro hdirect hb r hmin
    simp only [findNetmailRoute]
    rw [hdirect]
    have hboss :
        (if msg.toAddr.point ≠ 0 then
          s.db.links.find?
            (fun x => x.ftnAddress == fidoString { msg.toAddr with point := 0 })
         else none) = (none : Option Link) := by
      rcases hb with hp | hn
      · rw [if_neg (by omega)]
      · by_cases hp : msg.toAddr.point ≠ 0
        · rw [if_pos hp, hn]
        · rw [if_neg hp]
    simp only [hboss, hmin]
  · intro hdirect hb hmin
    constructor
    · refine ⟨"no route found for netmail to ".toList ++ fidoString msg.toAddr, ?_⟩
      simp only [findNetmailRoute]
      rw [hdirect]
      have hboss :
          (if msg.toAddr.point ≠ 0 then
            s.db.links.find?
              (fun x => x.ftnAddress == fidoString { msg.toAddr with point := 0 })
           else none) = (none : Option Link) := by
        rcases hb with hp | hn
        · rw [if_neg (by omega)]
        · by_cases hp : msg.toAddr.point ≠ 0
          · rw [if_pos hp, hn]
          · rw [if_neg hp]
      simp only [hboss, hmin]
    · show (match findNetmailRoute s.db (prepareMsg s.cfg a msg) with
        | Except.ok r => r
        | Except.error _ => none) = _
      rw [hroute]
      simp only [findNetmailRoute]
      rw [hdirect]
      have hboss :
          (if msg.toAddr.point ≠ 0 then
            s.db.links.find?
              (fun x => x.ftnAddress == fidoString { msg.toAddr with point := 0 })
           else none) = (none : Option Link) := by
        rcases hb with hp | hn
        · rw [if_neg (by omega)]
        · by_cases hp : msg.toAddr.point ≠ 0
          · rw [if_pos hp, hn]
          · rw [if_neg hp]
      simp only [hboss, hmin]

/-- A link for the boss node 2:5020/100. -/
def linkBoss : Link :=
  { id := 7, stationName := "Boss".toList, ftnAddress := "2:5020/100".toList
    pktPassword := [], password := "-".toList, address := "-".toList }

/-- State with a single link, for the routing witness. -/
def sysBoss : Sys := { sysEmpty with db := { emptyDB with links := [linkBoss] } }

/-- A netmail addressed to point 5 of the boss node. -/
def msgToPoint : Message :=
  { area := "Netmail".toList, msgNum := 0, maxNum := 0, fromName := "Alice".toList
    toName := "Bob".toList, subject := "Hi".toList, body := "Hello\r".toList
    dateWritten := 0, dateArrived := 0, attrs := [], kludges := [], corrupted := false
    fromAddr := ⟨2, 5020, 1, 0⟩, toAddr := ⟨2, 5020, 100, 5⟩ }

/-- Witness for C1 at a concrete state: no direct link for
`2:5020/100.5`, the destination has a non-zero point, and the boss link
`2:5020/100` resolves, so the route is that link's id. -/
theorem netmail_route_priority_witness :
    List.find? (fun x => x.ftnAddress == fidoString msgToPoint.toAddr) sysBoss.db.links = none ∧
    msgToPoint.toAddr.point ≠ 0 ∧
    findNetmailRoute sysBoss.db msgToPoint = .ok (some linkBoss.id) :=
  ⟨by decide, by decide,
   (netmail_route_priority sysBoss areaEcho1Read1 msgToPoint).2.2.1 (by decide) (by decide)
     linkBoss (by decide)⟩

/-! ## Word-wrap lemmas (for C5) -/

theorem splitAux_no_nl (l : List Char) (h : '\n' ∉ l) :
    ∀ acc, splitAux l acc = [acc.reverse ++ l] := by
  induction l with
  | nil => intro acc; simp [splitAux]
  | cons c cs ih =>
    intro acc
    have hc : ¬ c = '\n' := fun hc => h (hc ▸ List.mem_cons_self c cs)
    rw [splitAux, if_neg hc, ih (fun hm => h (List.mem_cons_of_mem c hm)) (c :: acc)]
    simp

/-- C5: a quoted input line (no embedded line feed) longer than the
quote margin is wrapped by re-wrapping only the content after its
extracted quote marker at `quoteMargin - markerLength`, the marker
reproduced verbatim as a prefix of every output line; a non-quoted input
line no longer than the width is returned unchanged as a single output
line. -/
theorem wordwrap_quote_marker (line : List Char) (width quotemargin : Int)
    (hnl : '\n' ∉ line) :
    ((GetQuoteString line).2 > 0 → (line.length : Int) > quotemargin →
      WordWrapQuoteAware line width quotemargin =
        (wrapTextContent (line.drop (GetQuoteString line).2)
            (quotemargin - ((GetQuoteString line).2 : Int))).map
          (fun w => (GetQuoteString line).1 ++ w) ∧
      ∀ out ∈ WordWrapQuoteAware line width quotemargin,
        out.take (GetQuoteString line).1.length = (GetQuoteString line).1) ∧
    ((GetQuoteString line).2 = 0 → (line.length : Int) ≤ width →
      WordWrapQuoteAware line width quotemargin = [line]) := by
  by_cases hempty : line.length = 0
  · have hline : line = [] := List.length_eq_zero.mp hempty
    subst hline
    constructor
    · intro hq _
      simp [GetQuoteString, IsQuoteBasic] at hq
    · intro _ _
      rfl
  · have hflat : WordWrapQuoteAware line width quotemargin =
        processLine width quotemargin line := by
      unfold WordWrapQuoteAware
      rw [if_neg hempty, splitAux_no_nl line hnl []]
      simp
    rw [hflat]
    simp only [processLine]
    rw [if_neg hempty]
    constructor
    · intro hq hlm
      rw [if_pos hq, if_neg (not_le.mpr hlm)]
      refine ⟨rfl, ?_⟩
      intro out hout
      rcases List.mem_map.mp hout with ⟨w, _, rfl⟩
      exact List.take_left _ _
    · intro hq hlw
      rw [hq]
      simp only [gt_iff_lt, lt_irrefl, if_false]
      rw [if_pos hlw]

/-- Witness for C5 at concrete inputs: a quoted 17-column line against
quote margin 8 is re-wrapped with its `"> "` marker prefixed, and a
plain 11-column line within width 20 passes through unchanged. -/
theorem wordwrap_quote_marker_witness :
    WordWrapQuoteAware "> aaa bbb ccc ddd".toList 20 8 =
      (wrapTextContent ("> aaa bbb ccc ddd".toList.drop
          (GetQuoteString "> aaa bbb ccc ddd".toList).2)
        (8 - ((GetQuoteString "> aaa bbb ccc ddd".toList).2 : Int))).map
        (fun w => (GetQuoteString "> aaa bbb ccc ddd".toList).1 ++ w) ∧
    WordWrapQuoteAware "plain short".toList 20 8 = ["plain short".toList] :=
  ⟨((wordwrap_quote_marker "> aaa bbb ccc ddd".toList 20 8 (by decide)).1
      (by decide) (by decide)).1,
   (wordwrap_quote_marker "plain short".toList 20 8 (by decide)).2
      (by decide) (by decide)⟩

/-! ## Scan-window lemmas (for C4) -/

theorem scanQuoteBasic_iff (l : List Char) (n : Nat) :
    scanQuoteBasic l n = true ↔
      ∃ p, p < n ∧ l[p]? = some '>' ∧
        ∀ i, i < p → ∀ d, l[i]? = some d → qbStop d = false := by
  induction l generalizing n with
  | nil =>
    cases n <;> simp [scanQuoteBasic]
  | cons c cs ih =>
    cases n with
    | zero => simp [scanQuoteBasic]
    | succ n =>
      simp only [scanQuoteBasic]
      by_cases hq : IsQuoteChar c
      · rw [if_pos hq]
        have hc : c = '>' := of_decide_eq_true hq
        constructor
        · intro _
          exact ⟨0, Nat.succ_pos n, by simp [hc],
            fun i hi => absurd hi (Nat.not_lt_zero i)⟩
        · intro _; rfl
      · rw [if_neg hq]
        have hcne : ¬ c = '>' := fun h => hq (decide_eq_true h)
        by_cases hs : qbStop c
        · rw [if_pos hs]
          constructor
          · intro h; exact absurd h (by simp)
          · rintro ⟨p, hp, hgt, hbefore⟩
            cases p with
            | zero =>
              rw [List.getElem?_cons_zero] at hgt
              exact absurd (Option.some.inj hgt) hcne
            | succ p =>
              have h0 := hbefore 0 (Nat.succ_pos p) c (by simp)
              rw [hs] at h0
              exact absurd h0 (by simp)
        · rw [if_neg hs]
          rw [ih n]
          have hsf : qbStop c = false := Bool.eq_false_iff.mpr hs
          constructor
          · rintro ⟨p, hp, hgt, hbefore⟩
            refine ⟨p + 1, Nat.succ_lt_succ hp, by simpa using hgt, ?_⟩
            intro i hi d hd
            cases i with
            | zero =>
              rw [List.getElem?_cons_zero] at hd
              exact (Option.some.inj hd) ▸ hsf
            | succ i =>
              exact hbefore i (Nat.lt_of_succ_lt_succ hi) d (by simpa using hd)
          · rintro ⟨p, hp, hgt, hbefore⟩
            cases p with
            | zero =>
              rw [List.getElem?_cons_zero] at hgt
              exact absurd (Option.some.inj hgt) hcne
            | succ p =>
              refine ⟨p, Nat.lt_of_succ_lt_succ hp, by simpa using hgt, ?_⟩
              intro i hi d hd
              exact hbefore (i + 1) (Nat.succ_lt_succ hi) d (by simpa using hd)

/-- `IsQuoteBasic` restated through `skipLen` (definitional). -/
theorem isQuoteBasic_eq (line : List Char) :
    IsQuoteBasic line =
      if line.length = 0 then false
      else if skipLen line ≥ line.length || skipLen line ≥ min line.length 11 then false
      else scanQuoteBasic (line.drop (skipLen line))
        (min line.length 11 - skipLen line) := rfl

/-- C4 (amended): `IsQuoteBasic` is true exactly when a `>` appears at
a position at or after the skipped whitespace prefix and strictly below
11 — the 11-rune scan window being counted from the start of the line,
including any skipped leading whitespace — with no control, whitespace
or stop character strictly between the prefix and the `>`; in
particular a line whose first 11 runes contain no `>` yields false, and
`IsQuoteBasic("> quoted text") = true`,
`IsQuoteBasic("plain text") = false`. -/
theorem isQuoteBasic_window (ln : List Char) :
    (IsQuoteBasic ln = true ↔
      ∃ p, skipLen ln ≤ p ∧ p < 11 ∧ ln[p]? = some '>' ∧
        ∀ i, skipLen ln ≤ i → i < p → ∀ d, ln[i]? = some d → qbStop d = false) ∧
    ((∀ i, i < 11 → ln[i]? ≠ some '>') → IsQuoteBasic ln = false) ∧
    IsQuoteBasic "> quoted text".toList = true ∧
    IsQuoteBasic "plain text".toList = false := by
  have hmain : IsQuoteBasic ln = true ↔
      ∃ p, skipLen ln ≤ p ∧ p < 11 ∧ ln[p]? = some '>' ∧
        ∀ i, skipLen ln ≤ i → i < p → ∀ d, ln[i]? = some d → qbStop d = false := by
    rw [isQuoteBasic_eq]
    by_cases hlen : ln.length = 0
    · rw [if_pos hlen]
      constructor
      · intro h; exact absurd h (by simp)
      · rintro ⟨p, _, _, hgt, _⟩
        obtain ⟨hp, _⟩ := List.getElem?_eq_some_iff.mp hgt
        omega
    · rw [if_neg hlen]
      by_cases hskip : skipLen ln ≥ ln.length ∨ skipLen ln ≥ min ln.length 11
      · have hcond : (decide (skipLen ln ≥ ln.length) ||
            decide (skipLen ln ≥ min ln.length 11)) = true := by
          rcases hskip with h | h <;> simp [h]
        rw [if_pos hcond]
        constructor
        · intro h; exact absurd h (by simp)
        · rintro ⟨p, hsp, hp11, hgt, _⟩
          obtain ⟨hp, _⟩ := List.getElem?_eq_some_iff.mp hgt
          have hmin : p < min ln.length 11 := Nat.lt_min.mpr ⟨hp, hp11⟩
          rcases hskip with h | h
          · omega
          · exact absurd hmin (not_lt.mpr (le_trans h hsp))
      · push_neg at hskip
        obtain ⟨h1, h2⟩ := hskip
        have hcond : ¬ ((decide (skipLen ln ≥ ln.length) ||
            decide (skipLen ln ≥ min ln.length 11)) = true) := by
          simp only [Bool.or_eq_true, decide_eq_true_eq]
          push_neg
          exact ⟨h1, h2⟩
        rw [if_neg hcond]
        rw [scanQuoteBasic_iff]
        constructor
        · rintro ⟨k, hk, hgt, hbef⟩
          rw [List.getElem?_drop] at hgt
          refine ⟨skipLen ln + k, Nat.le_add_right _ _, ?_, hgt, ?_⟩
          · have hlt : skipLen ln + k < min ln.length 11 := by omega
            exact lt_of_lt_of_le hlt (Nat.min_le_right _ _)
          · intro i hsi hip d hd
            have hj : i - skipLen ln < k := by omega
            refine hbef (i - skipLen ln) hj d ?_
            rw [List.getElem?_drop, Nat.add_sub_cancel' hsi]
            exact hd
        · rintro ⟨p, hsp, hp11, hgt, hbef⟩
          obtain ⟨hp, _⟩ := List.getElem?_eq_some_iff.mp hgt
          have hmin : p < min ln.length 11 := Nat.lt_min.mpr ⟨hp, hp11⟩
          refine ⟨p - skipLen ln, by omega, ?_, ?_⟩
          · rw [List.getElem?_drop, Nat.add_sub_cancel' hsp]
            exact hgt
          · intro j hj d hd
            rw [List.getElem?_drop] at hd
            exact hbef (skipLen ln + j) (Nat.le_add_right _ _) (by omega) d hd
  refine ⟨hmain, ?_, by decide, by decide⟩
  intro hno
  cases h : IsQuoteBasic ln
  · rfl
  · exfalso
    obtain ⟨p, _, hp11, hgt, _⟩ := hmain.mp h
    exact hno p hp11 hgt

/-- C4's refinement target, following the claim's words: the 11-rune
scan window counted after skipping the leading whitespace — true when a
`>` appears at a position `p` with `skip ≤ p < skip + 11`, with no
control, whitespace or stop character between the skipped prefix and
the `>`. -/
def quoteBasicClaimed (ln : List Char) : Bool :=
  (List.range ln.length).any (fun p =>
    decide (skipLen ln ≤ p) && decide (p < skipLen ln + 11) &&
    (ln[p]? == some '>') &&
    (List.range p).all (fun i =>
      decide (i < skipLen ln) || (ln[i]?.all (fun d => !qbStop d))))

/-- C4 counterexample: on `"      Hello> x"` (six leading spaces, the
`>` at index 11) the claim's after-skip reading admits the quote — the
`>` is within 11 runes of the end of the whitespace — but the code
counts its scan limit from the start of the line and returns false. -/
theorem quoteBasic_skip_window_counterexample :
    IsQuoteBasic "      Hello> x".toList = false ∧
    quoteBasicClaimed "      Hello> x".toList = true := by
  exact ⟨by decide, by decide⟩

/-- Witness for C4's amended theorem: a line of 11 non-quote runes
before its `>` is classified not-quoted, through the no-`>`-in-window
conjunct. -/
theorem isQuoteBasic_window_witness :
    IsQuoteBasic "abcdefghijk>".toList = false :=
  (isQuoteBasic_window "abcdefghijk>".toList).2.1 (by decide)

end Gossiped
